import Mathlib

/-!
Verification of the PantryPal recipe-search application (src/app.py).

The Python source is shallowly embedded: the external Spoonacular API is a
family of oracle functions passed as parameters, HTTP/JSON strings that the
code processes character by character are `List Char`, and every handler is
a pure function from its inputs (and the relevant database/session state)
to its outputs.  Python exceptions raised by `requests` are modelled with
`Option` / `Except` results of the oracles.
-/

namespace PantryPal

/-! ## Character-level string primitives

`str.split(',')`, `str.strip()`, `str.lower()` and `str.startswith('#')`
from the source are modelled on the underlying character lists so that all
definitions compute by kernel reduction. -/

/-- Python's `str.lower()` restricted to its ASCII behaviour (the only case
exercised by the code: ingredient text and e-mail addresses). -/
def lowerChar (c : Char) : Char :=
  if 'A' ≤ c ∧ c ≤ 'Z' then Char.ofNat (c.toNat + 32) else c

/-- Whitespace stripped by Python's `str.strip()` (ASCII portion). -/
def isSpaceChar (c : Char) : Bool :=
  c = ' ' || c = '\t' || c = '\n' || c = '\r' || c = '\x0b' || c = '\x0c'

/-- `str.strip()`: drop whitespace from both ends. -/
def trimChars (l : List Char) : List Char :=
  ((l.dropWhile isSpaceChar).reverse.dropWhile isSpaceChar).reverse

/-- Auxiliary state machine for `str.split(',')`. -/
def splitCommaAux : List Char → List Char → List (List Char)
  | [], acc => [acc.reverse]
  | c :: rest, acc =>
    if c = ',' then acc.reverse :: splitCommaAux rest []
    else splitCommaAux rest (c :: acc)

/-- Python's `str.split(',')` (keeps empty fields, like Python). -/
def splitComma (s : List Char) : List (List Char) := splitCommaAux s []

/-- `', '.join(tokens)` from the ingredients handler. -/
def joinCommaSpace : List (List Char) → List Char
  | [] => []
  | [t] => t
  | t :: ts => t ++ (',' :: ' ' :: joinCommaSpace ts)

/-- Python's `str.lower()` on a whole string (ASCII behaviour). -/
def pyLower (s : String) : String := ⟨s.data.map lowerChar⟩

/-! ## Data model

`Recipe` is the projection of a Spoonacular recipe JSON object onto the
fields the application reads or writes (`id`, `title`, `image`,
`readyInMinutes`, `cuisines`, `match_count`).  A field the JSON object may
lack is an `Option`; `rid = none` models a missing `id` key and
`rid = some 0` a falsy one, both skipped by `if recipe_id:`. -/

structure Recipe where
  rid : Option Nat
  title : String
  image : String
  readyInMinutes : Option Nat
  cuisines : List String
  match_count : Option Nat
  deriving Repr, DecidableEq

/-- The detail payload (`/recipes/{id}/information`) as read by the code:
`readyInMinutes`, `cuisines`, `dishTypes`, `image`. -/
structure Info where
  readyInMinutes : Option Nat
  cuisines : List String
  dishTypes : List String
  image : Option String
  deriving Repr, DecidableEq

/-- The truthiness test `if not api_key:` on the module-level credential
(`os.getenv` yields `None` or a string; both `None` and `""` are falsy). -/
def keyPresent : Option String → Bool
  | none => false
  | some s => !(s == "")

/-! ## OR-mode aggregation state

The OR branch of `get_recipes` (and `get_fallback_recipes`) keeps a dict
`all_recipes` keyed by recipe id and a parallel dict
`ingredient_match_count`.  Python dicts preserve insertion order, so both
are association lists extended at the right end. -/

structure AggSt where
  all_recipes : List (Nat × Recipe)
  ingredient_match_count : List (Nat × Nat)
  deriving Repr, DecidableEq

/-- Association-list lookup keyed by recipe id (Python dict access). -/
def alookup {β : Type} (i : Nat) : List (Nat × β) → Option β
  | [] => none
  | (k, v) :: es => if k = i then some v else alookup i es

/-- `ingredient_match_count[recipe_id] += 1`. -/
def bumpCount : List (Nat × Nat) → Nat → List (Nat × Nat)
  | [], _ => []
  | (k, v) :: es, i => (k, if k = i then v + 1 else v) :: bumpCount es i

/-- The body of the inner loop (`for recipe in recipes:`) of the OR
aggregation: skip falsy ids, insert unseen recipes with count 0, then
increment the count. -/
def addRecipe (st : AggSt) (r : Recipe) : AggSt :=
  match r.rid with
  | none => st
  | some i =>
    if i = 0 then st
    else if (alookup i st.all_recipes).isSome then
      { st with ingredient_match_count := bumpCount st.ingredient_match_count i }
    else
      { all_recipes := st.all_recipes ++ [(i, r)],
        ingredient_match_count := bumpCount (st.ingredient_match_count ++ [(i, 0)]) i }

/-- One iteration of `for ingredient in ingredients_list:`: a failed
`findByIngredients` request (`except: continue`) leaves the state alone. -/
def searchIngredient (findByIngredients : List Char → Option (List Recipe))
    (st : AggSt) (g : List Char) : AggSt :=
  match findByIngredients g with
  | none => st
  | some rs => rs.foldl addRecipe st

/-- The whole per-ingredient aggregation loop. -/
def aggregate (findByIngredients : List Char → Option (List Recipe))
    (ings : List (List Char)) : AggSt :=
  ings.foldl (searchIngredient findByIngredients) ⟨[], []⟩

/-- `ingredient_match_count.get(i, 0)`. -/
def cntD (st : AggSt) (i : Nat) : Nat :=
  (alookup i st.ingredient_match_count).getD 0

/-- The sort key `ingredient_match_count.get(r.get("id", 0), 0)`. -/
def matchCountOf (st : AggSt) (r : Recipe) : Nat :=
  cntD st (r.rid.getD 0)

/-- Ordered insertion used to model
`recipes.sort(key=lambda r: ingredient_match_count.get(...), reverse=True)`:
a stable non-increasing sort by match count (CPython's sort is stable, so
any stable non-increasing sort by the same key computes the same list). -/
def insertByCount (st : AggSt) (r : Recipe) : List Recipe → List Recipe
  | [] => [r]
  | x :: xs =>
    if matchCountOf st r ≤ matchCountOf st x then x :: insertByCount st r xs
    else r :: x :: xs

/-- Stable insertion sort, non-increasing by match count. -/
def sortByCountDesc (st : AggSt) (l : List Recipe) : List Recipe :=
  l.foldl (fun acc r => insertByCount st r acc) []

/-- `recipes = list(all_recipes.values())`, sorted descending by match
count, then capped by `recipes[:num]`. -/
def rankedRecipes (st : AggSt) (num : Nat) : List Recipe :=
  (sortByCountDesc st (st.all_recipes.map Prod.snd)).take num

/-- `[ing.strip().lower() for ing in ingredients.split(',') if ing.strip()]`. -/
def normalizeIngredients (s : String) : List (List Char) :=
  ((splitComma s.data).filter (fun t => !(trimChars t).isEmpty)).map
    (fun t => (trimChars t).map lowerChar)

/-! ## Detail enrichment and filters (OR branch of `get_recipes`) -/

/-- The three dict assignments performed on a recipe after a successful
detail fetch in the OR branch. -/
def applyInfoOR (r : Recipe) (info : Info) : Recipe :=
  { r with readyInMinutes := info.readyInMinutes,
           cuisines := info.cuisines,
           image := info.image.getD r.image }

/-- The three `continue` filters of the OR branch: a recipe passes when no
filter fires.  `max_time`/`cuisine`/`dish_type` are `none` when the Python
value is falsy (`None` or `''`). -/
def passesFilters (max_time : Option Nat) (cuisine dish_type : Option String)
    (info : Info) : Bool :=
  (match max_time with
   | none => true
   | some t => !(info.readyInMinutes.getD 0 > t)) &&
  (match cuisine with
   | none => true
   | some c => info.cuisines.contains c) &&
  (match dish_type with
   | none => true
   | some d => info.dishTypes.contains d)

/-- One iteration of the OR-branch enrichment loop.  A missing id key or a
failed info request raises inside `try`, the bare `except: pass` falls
through, and the unmodified recipe is appended; on success the recipe is
mutated and then possibly dropped by a filter `continue`. -/
def enrichStepOR (getInfo : Nat → Option Info) (max_time : Option Nat)
    (cuisine dish_type : Option String) (r : Recipe) : Option Recipe :=
  match r.rid with
  | none => some r
  | some i =>
    match getInfo i with
    | none => some r
    | some info =>
      if passesFilters max_time cuisine dish_type info then some (applyInfoOR r info)
      else none

/-- The OR branch of `get_recipes`: aggregate per-ingredient results, sort
by match count, cap at `num`, then enrich and filter. -/
def get_recipes_OR (findByIngredients : List Char → Option (List Recipe))
    (getInfo : Nat → Option Info) (ingredients : String) (max_time : Option Nat)
    (cuisine dish_type : Option String) (num : Nat) : List Recipe :=
  let st := aggregate findByIngredients (normalizeIngredients ingredients)
  (rankedRecipes st num).filterMap (enrichStepOR getInfo max_time cuisine dish_type)

/-! ## AND branch of `get_recipes` -/

/-- The params dict built for the `complexSearch` request (the constant
`apiKey` / `addRecipeInformation` entries are omitted). -/
structure ComplexQuery where
  number : Nat
  includeIngredients : String
  maxReadyTime : Option Nat
  cuisine : Option String
  dishType : Option String
  minMaxIngredients : Option (Nat × Nat)
  deriving Repr, DecidableEq

def buildComplexQuery (ingredients : String) (max_time : Option Nat)
    (cuisine dish_type : Option String) (num : Nat) (low_ingredient : Bool) :
    ComplexQuery :=
  { number := num, includeIngredients := ingredients, maxReadyTime := max_time,
    cuisine := cuisine, dishType := dish_type,
    minMaxIngredients := if low_ingredient then some (1, 5) else none }

/-- Failure modes of one `requests.get` + `raise_for_status` + `json()`
round trip: an `HTTPError` with a status code, or any other exception. -/
inductive ApiFailure where
  | http (status : Nat)
  | conn (msg : String)
  deriving Repr, DecidableEq

/-- The error categories `get_recipes` can raise: the missing-credential
`RuntimeError`, a re-raised `requests.HTTPError`, or the wrapped
`RuntimeError("Error fetching recipes: ...")`. -/
inductive SearchError where
  | missingKey
  | http (status : Nat)
  | runtime (msg : String)
  deriving Repr, DecidableEq

/-- One iteration of the AND-branch enrichment loop: on success only
`readyInMinutes` and `cuisines` are overwritten, on any failure the bare
`except: pass` keeps the recipe as returned by the search; the recipe is
appended in every case. -/
def enrichStepAND (getInfo : Nat → Option Info) (r : Recipe) : Recipe :=
  match r.rid with
  | none => r
  | some i =>
    match getInfo i with
    | none => r
    | some info => { r with readyInMinutes := info.readyInMinutes,
                            cuisines := info.cuisines }

/-- `get_recipes(ingredients, max_time, cuisine, num, search_type,
dish_type, low_ingredient)` with the external API supplied as oracles.
Any `search_type` other than `'OR'` takes the AND (`complexSearch`)
branch, whose request failure is re-raised (`HTTPError`) or wrapped in a
`RuntimeError`; the enrichment loop itself cannot raise. -/
def get_recipes (api_key : Option String)
    (complexSearch : ComplexQuery → Except ApiFailure (List Recipe))
    (findByIngredients : List Char → Option (List Recipe))
    (getInfo : Nat → Option Info)
    (ingredients : String) (max_time : Option Nat) (cuisine : Option String)
    (num : Nat) (search_type : String) (dish_type : Option String)
    (low_ingredient : Bool) : Except SearchError (List Recipe) :=
  if !keyPresent api_key then .error .missingKey
  else if search_type == "OR" then
    .ok (get_recipes_OR findByIngredients getInfo ingredients max_time cuisine
          dish_type num)
  else
    match complexSearch
        (buildComplexQuery ingredients max_time cuisine dish_type num
          low_ingredient) with
    | .error (.http s) => .error (.http s)
    | .error (.conn m) => .error (.runtime m)
    | .ok rs => .ok (rs.map (enrichStepAND getInfo))

/-! ## `get_fallback_recipes` -/

/-- One iteration of the fallback enrichment loop.  Unlike the OR branch
of `get_recipes`, its `except:` clause says `continue`, so a recipe whose
detail fetch fails is dropped; on success the recipe is additionally
annotated with `match_count`. -/
def enrichStepFallback (getInfo : Nat → Option Info) (st : AggSt) (r : Recipe) :
    Option Recipe :=
  match r.rid with
  | none => none
  | some i =>
    match getInfo i with
    | none => none
    | some info =>
      some { r with readyInMinutes := info.readyInMinutes,
                    cuisines := info.cuisines,
                    image := info.image.getD r.image,
                    match_count := some (matchCountOf st r) }

/-- `get_fallback_recipes(ingredients, num)`: with a falsy credential it
returns `[]` (it does not raise); otherwise it runs the same aggregation
as the OR branch and the drop-on-failure enrichment loop. -/
def get_fallback_recipes (api_key : Option String)
    (findByIngredients : List Char → Option (List Recipe))
    (getInfo : Nat → Option Info) (ingredients : String) (num : Nat) :
    List Recipe :=
  if !keyPresent api_key then []
  else
    let st := aggregate findByIngredients (normalizeIngredients ingredients)
    (rankedRecipes st num).filterMap (enrichStepFallback getInfo st)

/-! ## The `/ingredients` POST handler (search branch) -/

/-- The `#`-exclusion normalization of the handler:
`[ing.strip() for ing in text.split(',') if ing.strip() and not
ing.strip().startswith('#')]`. -/
def filterExcludedTokens (s : String) : List (List Char) :=
  ((splitComma s.data).filter
    (fun t => !(trimChars t).isEmpty && !((trimChars t).head? == some '#'))).map
    trimChars

/-- `ingredients_text = ', '.join(ingredients_list)` — the query string
handed to `get_recipes` / `get_fallback_recipes`. -/
def filterExcluded (s : String) : String :=
  ⟨joinCommaSpace (filterExcludedTokens s)⟩

/-- The `flash`-style messages produced by the handler's error taxonomy
(402 / 401 / 429 / other HTTP status / any other exception, the last one
covering the missing-credential `RuntimeError` from `get_recipes`). -/
def searchErrorMessage : SearchError → String
  | .http s =>
    if s = 402 then
      "API quota exceeded. The free Spoonacular API tier allows 150 requests per day. Please try again tomorrow or upgrade your API plan at https://spoonacular.com/food-api/pricing"
    else if s = 401 then
      "API key is invalid. Please check your SPOONACULAR_API_KEY in the .env file."
    else if s = 429 then
      "Too many requests. Please wait a moment and try again."
    else "Error from API: " ++ toString s
  | .missingKey =>
    "Something went wrong: API key not set. Add SPOONACULAR_API_KEY to .env file"
  | .runtime m => "Something went wrong: " ++ m

def noExactMatchMessage : String :=
  "No exact matches found. Here are recipes that share at least one ingredient with your search:"

def noRecipesMessage : String := "No recipes found. Try different ingredients."

/-- What the search branch of the `ingredients` handler leaves behind:
the recipes displayed, the flashed error text, the session's
`is_fallback` flag after the request, and whether
`get_fallback_recipes` was called during the request. -/
structure SearchOutcome where
  recipes : Option (List Recipe)
  error : Option String
  is_fallback : Bool
  fallbackCalled : Bool
  deriving Repr, DecidableEq

/-- The POST/validated branch of the `ingredients` handler: strip
`#`-excluded tokens, run the primary search, and fall back exactly when it
returns an empty list.  `prev_is_fallback` is the session's `is_fallback`
value entering the request (the branches that do not write or pop the key
leave it unchanged). -/
def ingredientsPost (api_key : Option String)
    (complexSearch : ComplexQuery → Except ApiFailure (List Recipe))
    (findByIngredients : List Char → Option (List Recipe))
    (getInfo : Nat → Option Info)
    (text : String) (max_time : Option Nat) (cuisine : Option String)
    (search_type : String) (dish_type : Option String) (low_ingredient : Bool)
    (prev_is_fallback : Bool) : SearchOutcome :=
  let q := filterExcluded text
  match get_recipes api_key complexSearch findByIngredients getInfo q max_time
      cuisine 30 search_type dish_type low_ingredient with
  | .ok all =>
    if all.isEmpty then
      let fbr := get_fallback_recipes api_key findByIngredients getInfo q 30
      if !fbr.isEmpty then
        { recipes := some fbr, error := some noExactMatchMessage,
          is_fallback := true, fallbackCalled := true }
      else
        { recipes := none, error := some noRecipesMessage,
          is_fallback := prev_is_fallback, fallbackCalled := true }
    else
      { recipes := some all, error := none,
        is_fallback := false, fallbackCalled := false }
  | .error e =>
    { recipes := none, error := some (searchErrorMessage e),
      is_fallback := prev_is_fallback, fallbackCalled := false }

/-! ## Favorites (`add_favorite`) -/

/-- A row of the `favorites` table. -/
structure Favorite where
  user_id : Nat
  recipe_id : Nat
  recipe_title : String
  recipe_image : String
  deriving Repr, DecidableEq

/-- The fields of the detail payload read by `add_favorite`. -/
structure FavApiInfo where
  title : Option String
  image : Option String
  deriving Repr, DecidableEq

/-- The three JSON responses `add_favorite` can produce: the 400
"Already in favorites" rejection, the 500 handler for a failed API call,
and success. -/
inductive FavAddResult where
  | alreadyInFavorites
  | apiFailed (msg : String)
  | added
  deriving Repr, DecidableEq

/-- `add_favorite(recipe_id)` for a fixed current user: pre-check the
(user, recipe) pair, fetch display fields, insert.  Returns the new table
contents and the JSON outcome. -/
def add_favorite (recipeInfoApi : Nat → Option FavApiInfo) (db : List Favorite)
    (user_id recipe_id : Nat) : List Favorite × FavAddResult :=
  match db.find? (fun f => f.user_id == user_id && f.recipe_id == recipe_id) with
  | some _ => (db, .alreadyInFavorites)
  | none =>
    match recipeInfoApi recipe_id with
    | none => (db, .apiFailed "request failed")
    | some d =>
      (db ++ [{ user_id := user_id, recipe_id := recipe_id,
                recipe_title := d.title.getD "Unknown",
                recipe_image := d.image.getD "" }], .added)

/-! ## Users (`signup` / `login`) -/

/-- A row of the `users` table. -/
structure User where
  email : String
  password_hash : String
  deriving Repr, DecidableEq

inductive SignupResult where
  | emailExists
  | created
  deriving Repr, DecidableEq

/-- The validated branch of `signup`: the uniqueness pre-check and the
insert both use `form.email.data.lower()`.  `gen_hash` models
`generate_password_hash`. -/
def signup (gen_hash : String → String) (db : List User)
    (email password : String) : List User × SignupResult :=
  match db.find? (fun u => u.email == pyLower email) with
  | some _ => (db, .emailExists)
  | none =>
    (db ++ [{ email := pyLower email, password_hash := gen_hash password }],
     .created)

/-- The validated branch of `login`: look up by
`form.email.data.lower()` and compare hashes (`check_hash` models
`check_password_hash`); `true` means `login_user` runs. -/
def login (check_hash : String → String → Bool) (db : List User)
    (email password : String) : Bool :=
  match db.find? (fun u => u.email == pyLower email) with
  | none => false
  | some u => check_hash u.password_hash password

/-! ## Specification-side counting functions (for the match-count claims)

These two follow the spec's words, not the code, and are compared with the
code's counter: the number of occurrences of an id across all
per-ingredient responses, and the number of distinct per-ingredient
queries whose response contains the id. -/

def occurrenceCount (findByIngredients : List Char → Option (List Recipe))
    (ings : List (List Char)) (i : Nat) : Nat :=
  (ings.map (fun g =>
    ((findByIngredients g).getD []).countP (fun r => r.rid == some i))).sum

def distinctQueryCount (findByIngredients : List Char → Option (List Recipe))
    (ings : List (List Char)) (i : Nat) : Nat :=
  ings.countP (fun g => ((findByIngredients g).getD []).any
    (fun r => r.rid == some i))

/-! ## Association-list lemmas -/

theorem alookup_bumpCount (c : List (Nat × Nat)) (i j : Nat) :
    alookup j (bumpCount c i) =
      if j = i then (alookup j c).map (· + 1) else alookup j c := by
  induction c with
  | nil => by_cases h : j = i <;> simp [bumpCount, alookup, h]
  | cons p c ih =>
    obtain ⟨k, v⟩ := p
    by_cases hkj : k = j
    · subst hkj
      by_cases hki : k = i <;> simp [bumpCount, alookup, hki]
    · simp only [bumpCount, alookup, if_neg hkj, ih]

theorem alookup_append {β : Type} (c d : List (Nat × β)) (i : Nat) :
    alookup i (c ++ d) = (alookup i c).or (alookup i d) := by
  induction c with
  | nil => simp [alookup]
  | cons p c ih =>
    obtain ⟨k, v⟩ := p
    by_cases h : k = i <;> simp [alookup, h, ih]

theorem alookup_isSome_iff {β : Type} (c : List (Nat × β)) (i : Nat) :
    (alookup i c).isSome = true ↔ i ∈ c.map Prod.fst := by
  induction c with
  | nil => simp [alookup]
  | cons p c ih =>
    obtain ⟨k, v⟩ := p
    by_cases h : k = i
    · subst h
      simp [alookup]
    · rw [List.map_cons]
      constructor
      · intro hs
        exact List.mem_cons_of_mem _ (ih.mp (by simpa [alookup, h] using hs))
      · intro hm
        rcases List.mem_cons.mp hm with hm | hm
        · exact absurd hm.symm h
        · simpa [alookup, h] using ih.mpr hm

theorem bumpCount_keys (c : List (Nat × Nat)) (i : Nat) :
    (bumpCount c i).map Prod.fst = c.map Prod.fst := by
  induction c with
  | nil => rfl
  | cons p c ih =>
    obtain ⟨k, v⟩ := p
    by_cases h : k = i <;> simp [bumpCount, h, ih]

/-! ## Invariants of the OR aggregation -/

/-- Invariant of the aggregation state: the two parallel dicts have the
same keys in the same order, keys are unique and non-zero, and every
stored recipe carries its own key as id. -/
def AggInv (st : AggSt) : Prop :=
  st.ingredient_match_count.map Prod.fst = st.all_recipes.map Prod.fst ∧
  (st.all_recipes.map Prod.fst).Nodup ∧
  ∀ p ∈ st.all_recipes, p.2.rid = some p.1 ∧ p.1 ≠ 0

theorem AggInv_nil : AggInv ⟨[], []⟩ := by
  refine ⟨rfl, List.nodup_nil, ?_⟩
  intro p hp
  simp at hp

theorem addRecipe_none {st : AggSt} {r : Recipe} (h : r.rid = none) :
    addRecipe st r = st := by
  simp [addRecipe, h]

theorem addRecipe_zero {st : AggSt} {r : Recipe} (h : r.rid = some 0) :
    addRecipe st r = st := by
  simp [addRecipe, h]

theorem addRecipe_old {st : AggSt} {r : Recipe} {i : Nat} (h : r.rid = some i)
    (hi : i ≠ 0) (hm : (alookup i st.all_recipes).isSome = true) :
    addRecipe st r =
      { st with ingredient_match_count := bumpCount st.ingredient_match_count i } := by
  simp [addRecipe, h, hi, hm]

theorem addRecipe_new {st : AggSt} {r : Recipe} {i : Nat} (h : r.rid = some i)
    (hi : i ≠ 0) (hm : (alookup i st.all_recipes).isSome = false) :
    addRecipe st r =
      { all_recipes := st.all_recipes ++ [(i, r)],
        ingredient_match_count := bumpCount (st.ingredient_match_count ++ [(i, 0)]) i } := by
  simp [addRecipe, h, hi, hm]

theorem addRecipe_inv {st : AggSt} (h : AggInv st) (r : Recipe) :
    AggInv (addRecipe st r) := by
  obtain ⟨hkeys, hnd, hrid⟩ := h
  cases hr : r.rid with
  | none =>
    rw [addRecipe_none hr]
    exact ⟨hkeys, hnd, hrid⟩
  | some i =>
    by_cases hi : i = 0
    · subst hi
      rw [addRecipe_zero hr]
      exact ⟨hkeys, hnd, hrid⟩
    · by_cases hm : (alookup i st.all_recipes).isSome = true
      · rw [addRecipe_old hr hi hm]
        exact ⟨by simpa [bumpCount_keys] using hkeys, hnd, hrid⟩
      · have hm' : (alookup i st.all_recipes).isSome = false := by
          rw [Bool.eq_false_iff]
          exact hm
        rw [addRecipe_new hr hi hm']
        have hnotmem : i ∉ st.all_recipes.map Prod.fst := by
          rw [← alookup_isSome_iff]
          simp [hm']
        refine ⟨?_, ?_, ?_⟩
        · simp only [bumpCount_keys, List.map_append, hkeys]
          rfl
        · rw [List.map_append, List.nodup_append]
          refine ⟨hnd, by simp, ?_⟩
          intro a ha hai
          simp at hai
          subst hai
          exact hnotmem ha
        · intro p hp
          rcases List.mem_append.mp hp with hp | hp
          · exact hrid p hp
          · simp at hp
            subst hp
            exact ⟨hr, hi⟩

theorem cntD_addRecipe {st : AggSt} (h : AggInv st) (r : Recipe) {i : Nat}
    (hi : i ≠ 0) :
    cntD (addRecipe st r) i = cntD st i + (if r.rid = some i then 1 else 0) := by
  cases hr : r.rid with
  | none =>
    rw [addRecipe_none hr]
    simp
  | some j =>
    by_cases hj : j = 0
    · subst hj
      rw [addRecipe_zero hr]
      have hne : ¬ ((some 0 : Option Nat) = some i) := by
        intro hc
        exact hi (Option.some_injective _ hc).symm
      simp [hne]
    · by_cases hm : (alookup j st.all_recipes).isSome = true
      · rw [addRecipe_old hr hj hm]
        by_cases hij : i = j
        · subst hij
          have hmem : i ∈ st.all_recipes.map Prod.fst := (alookup_isSome_iff _ _).mp hm
          have hcm : (alookup i st.ingredient_match_count).isSome = true := by
            rw [alookup_isSome_iff, h.1]
            exact hmem
          obtain ⟨v, hv⟩ := Option.isSome_iff_exists.mp hcm
          simp [cntD, alookup_bumpCount, hv]
        · have hne : ¬ ((some j : Option Nat) = some i) := by
            intro hc
            exact hij (Option.some_injective _ hc).symm
          simp [cntD, alookup_bumpCount, hij, hne]
      · have hm' : (alookup j st.all_recipes).isSome = false := Bool.eq_false_iff.mpr hm
        rw [addRecipe_new hr hj hm']
        by_cases hij : i = j
        · subst hij
          have hcm : (alookup i st.ingredient_match_count).isSome = false := by
            rw [Bool.eq_false_iff]
            intro hc
            rw [alookup_isSome_iff, h.1, ← alookup_isSome_iff] at hc
            rw [hc] at hm'
            exact Bool.true_eq_false.mp hm'
          have hnone : alookup i st.ingredient_match_count = none :=
            Option.not_isSome_iff_eq_none.mp (by simp [hcm])
          simp [cntD, alookup_bumpCount, alookup_append, hnone, alookup]
        · have hne : ¬ ((some j : Option Nat) = some i) := by
            intro hc
            exact hij (Option.some_injective _ hc).symm
          have hsingle : alookup i [(j, 0)] = none := by
            have hji : ¬ j = i := fun hc => hij hc.symm
            simp [alookup, hji]
          simp [cntD, alookup_bumpCount, alookup_append, hij, hne, hsingle]

theorem AggInv_foldl (rs : List Recipe) {st : AggSt} (h : AggInv st) :
    AggInv (rs.foldl addRecipe st) := by
  induction rs generalizing st with
  | nil => exact h
  | cons r rs ih => exact ih (addRecipe_inv h r)

theorem AggInv_searchIngredient (fb : List Char → Option (List Recipe))
    {st : AggSt} (h : AggInv st) (g : List Char) :
    AggInv (searchIngredient fb st g) := by
  unfold searchIngredient
  cases fb g with
  | none => exact h
  | some rs => exact AggInv_foldl rs h

theorem AggInv_aggregate (fb : List Char → Option (List Recipe))
    (ings : List (List Char)) : AggInv (aggregate fb ings) := by
  unfold aggregate
  suffices h : ∀ (l : List (List Char)) (st : AggSt), AggInv st →
      AggInv (l.foldl (searchIngredient fb) st) from h ings ⟨[], []⟩ AggInv_nil
  intro l
  induction l with
  | nil => exact fun st h => h
  | cons g gs ih => exact fun st h => ih _ (AggInv_searchIngredient fb h g)

theorem cntD_foldl (rs : List Recipe) {st : AggSt} (h : AggInv st) {i : Nat}
    (hi : i ≠ 0) :
    cntD (rs.foldl addRecipe st) i =
      cntD st i + rs.countP (fun r => r.rid == some i) := by
  induction rs generalizing st with
  | nil => simp
  | cons r rs ih =>
    simp only [List.foldl_cons]
    rw [ih (addRecipe_inv h r), cntD_addRecipe h r hi, List.countP_cons]
    by_cases h' : r.rid = some i
    · simp [h']
      omega
    · simp [h']

theorem cntD_searchIngredient (fb : List Char → Option (List Recipe))
    {st : AggSt} (h : AggInv st) (g : List Char) {i : Nat} (hi : i ≠ 0) :
    cntD (searchIngredient fb st g) i =
      cntD st i + ((fb g).getD []).countP (fun r => r.rid == some i) := by
  unfold searchIngredient
  cases fb g with
  | none => simp
  | some rs => simpa using cntD_foldl rs h hi

/-- The code's counter agrees with the spec-side occurrence count: after
the whole aggregation, `ingredient_match_count.get(i, 0)` is the total
number of occurrences of id `i` across all per-ingredient responses. -/
theorem cntD_aggregate (fb : List Char → Option (List Recipe))
    (ings : List (List Char)) {i : Nat} (hi : i ≠ 0) :
    cntD (aggregate fb ings) i = occurrenceCount fb ings i := by
  unfold aggregate
  suffices h : ∀ (l : List (List Char)) (st : AggSt), AggInv st →
      cntD (l.foldl (searchIngredient fb) st) i =
        cntD st i + occurrenceCount fb l i by
    have h0 := h ings ⟨[], []⟩ AggInv_nil
    simpa [cntD, alookup] using h0
  intro l
  induction l with
  | nil =>
    intro st h
    simp [occurrenceCount]
  | cons g gs ih =>
    intro st h
    simp only [List.foldl_cons]
    rw [ih _ (AggInv_searchIngredient fb h g), cntD_searchIngredient fb h g hi]
    simp only [occurrenceCount, List.map_cons, List.sum_cons]
    omega

theorem mem_foldl_addRecipe {rs : List Recipe} {st : AggSt} {p : Nat × Recipe}
    (h : p ∈ (rs.foldl addRecipe st).all_recipes) :
    p ∈ st.all_recipes ∨ p.2 ∈ rs := by
  induction rs generalizing st with
  | nil => exact Or.inl h
  | cons r rs ih =>
    simp only [List.foldl_cons] at h
    rcases ih h with h' | h'
    · cases hr : r.rid with
      | none =>
        rw [addRecipe_none hr] at h'
        exact Or.inl h'
      | some i =>
        by_cases hi : i = 0
        · subst hi
          rw [addRecipe_zero hr] at h'
          exact Or.inl h'
        · by_cases hm : (alookup i st.all_recipes).isSome = true
          · rw [addRecipe_old hr hi hm] at h'
            exact Or.inl h'
          · have hm' : (alookup i st.all_recipes).isSome = false :=
              Bool.eq_false_iff.mpr hm
            rw [addRecipe_new hr hi hm'] at h'
            rcases List.mem_append.mp h' with h'' | h''
            · exact Or.inl h''
            · simp at h''
              subst h''
              exact Or.inr (List.mem_cons_self r rs)
    · exact Or.inr (List.mem_cons_of_mem r h')

theorem mem_aggregate_values {fb : List Char → Option (List Recipe)}
    {ings : List (List Char)} {p : Nat × Recipe}
    (h : p ∈ (aggregate fb ings).all_recipes) :
    ∃ g ∈ ings, p.2 ∈ (fb g).getD [] := by
  unfold aggregate at h
  suffices h' : ∀ (l : List (List Char)) (st : AggSt),
      p ∈ (l.foldl (searchIngredient fb) st).all_recipes →
      p ∈ st.all_recipes ∨ ∃ g ∈ l, p.2 ∈ (fb g).getD [] by
    rcases h' ings ⟨[], []⟩ h with h'' | h''
    · simp at h''
    · exact h''
  intro l
  induction l with
  | nil => exact fun st h => Or.inl h
  | cons g gs ih =>
    intro st hmem
    rcases ih _ hmem with h' | h'
    · unfold searchIngredient at h'
      cases hg : fb g with
      | none =>
        rw [hg] at h'
        exact Or.inl h'
      | some rs =>
        rw [hg] at h'
        rcases mem_foldl_addRecipe h' with h'' | h''
        · exact Or.inl h''
        · exact Or.inr ⟨g, List.mem_cons_self _ _, by simp [hg, h'']⟩
    · obtain ⟨g', hg', hp⟩ := h'
      exact Or.inr ⟨g', List.mem_cons_of_mem _ hg', hp⟩

/-! ## The stable descending sort -/

theorem insertByCount_perm (st : AggSt) (r : Recipe) (l : List Recipe) :
    (insertByCount st r l).Perm (r :: l) := by
  induction l with
  | nil => simp [insertByCount]
  | cons x xs ih =>
    by_cases h : matchCountOf st r ≤ matchCountOf st x
    · simp only [insertByCount, if_pos h]
      exact (ih.cons x).trans (List.Perm.swap r x xs)
    · simp only [insertByCount, if_neg h]
      exact List.Perm.refl _

theorem sortByCountDesc_perm (st : AggSt) (l : List Recipe) :
    (sortByCountDesc st l).Perm l := by
  suffices h : ∀ (l acc : List Recipe),
      (l.foldl (fun s r => insertByCount st r s) acc).Perm (l ++ acc) by
    simpa using h l []
  intro l
  induction l with
  | nil => intro acc; simp
  | cons x xs ih =>
    intro acc
    simp only [List.foldl_cons]
    exact (ih _).trans
      ((List.Perm.append_left xs (insertByCount_perm st x acc)).trans
        List.perm_middle)

theorem insertByCount_pairwise {st : AggSt} {l : List Recipe}
    (h : l.Pairwise (fun a b => matchCountOf st b ≤ matchCountOf st a))
    (r : Recipe) :
    (insertByCount st r l).Pairwise
      (fun a b => matchCountOf st b ≤ matchCountOf st a) := by
  induction l with
  | nil => simp [insertByCount]
  | cons x xs ih =>
    rcases List.pairwise_cons.mp h with ⟨hx, hxs⟩
    by_cases hc : matchCountOf st r ≤ matchCountOf st x
    · simp only [insertByCount, if_pos hc]
      rw [List.pairwise_cons]
      refine ⟨?_, ih hxs⟩
      intro y hy
      rcases List.mem_cons.mp ((insertByCount_perm st r xs).mem_iff.mp hy) with
        h1 | h1
      · subst h1
        exact hc
      · exact hx y h1
    · simp only [insertByCount, if_neg hc]
      rw [List.pairwise_cons]
      refine ⟨?_, h⟩
      intro y hy
      have hxr : matchCountOf st x ≤ matchCountOf st r :=
        Nat.le_of_lt (Nat.lt_of_not_le hc)
      rcases List.mem_cons.mp hy with h1 | h1
      · subst h1
        exact hxr
      · exact Nat.le_trans (hx y h1) hxr

theorem sortByCountDesc_pairwise (st : AggSt) (l : List Recipe) :
    (sortByCountDesc st l).Pairwise
      (fun a b => matchCountOf st b ≤ matchCountOf st a) := by
  suffices h : ∀ (l acc : List Recipe),
      acc.Pairwise (fun a b => matchCountOf st b ≤ matchCountOf st a) →
      (l.foldl (fun s r => insertByCount st r s) acc).Pairwise
        (fun a b => matchCountOf st b ≤ matchCountOf st a) from
    h l [] List.Pairwise.nil
  intro l
  induction l with
  | nil => exact fun acc h => h
  | cons x xs ih => exact fun acc hacc => ih _ (insertByCount_pairwise hacc x)

/-! ## Transport of pairwise relations through the enrichment pass -/

theorem pairwise_filterMap_preserved {R : Recipe → Recipe → Prop}
    (f : Recipe → Option Recipe)
    (hf : ∀ a b a2 b2, f a = some a2 → f b = some b2 → R a b → R a2 b2)
    {l : List Recipe} (h : l.Pairwise R) : (l.filterMap f).Pairwise R := by
  induction l with
  | nil => simp
  | cons x xs ih =>
    rcases List.pairwise_cons.mp h with ⟨hx, hxs⟩
    cases hfx : f x with
    | none =>
      rw [List.filterMap_cons_none hfx]
      exact ih hxs
    | some x2 =>
      rw [List.filterMap_cons_some hfx, List.pairwise_cons]
      refine ⟨?_, ih hxs⟩
      intro y2 hy2
      obtain ⟨y, hy, hfy⟩ := List.mem_filterMap.mp hy2
      exact hf x y x2 y2 hfx hfy (hx y hy)

/-! ## What each enrichment step does to the identification fields -/

theorem enrichStepOR_some {gi : Nat → Option Info} {mt : Option Nat}
    {cu dt : Option String} {r r2 : Recipe}
    (h : enrichStepOR gi mt cu dt r = some r2) :
    r2.rid = r.rid ∧ r2.match_count = r.match_count := by
  unfold enrichStepOR at h
  split at h
  · cases h
    exact ⟨rfl, rfl⟩
  · split at h
    · cases h
      exact ⟨rfl, rfl⟩
    · split at h
      · cases h
        simp [applyInfoOR]
      · cases h

theorem enrichStepOR_fail {gi : Nat → Option Info} {mt : Option Nat}
    {cu dt : Option String} {r : Recipe}
    (h : ∀ i, r.rid = some i → gi i = none) :
    enrichStepOR gi mt cu dt r = some r := by
  unfold enrichStepOR
  split
  · rfl
  · rename_i i hri
    rw [h i hri]

theorem enrichStepAND_fields (gi : Nat → Option Info) (r : Recipe) :
    (enrichStepAND gi r).rid = r.rid ∧
      (enrichStepAND gi r).match_count = r.match_count := by
  unfold enrichStepAND
  split
  · exact ⟨rfl, rfl⟩
  · split
    · exact ⟨rfl, rfl⟩
    · exact ⟨rfl, rfl⟩

theorem enrichStepAND_fail {gi : Nat → Option Info} {r : Recipe} {i : Nat}
    (hr : r.rid = some i) (h : gi i = none) : enrichStepAND gi r = r := by
  unfold enrichStepAND
  split
  · rfl
  · rename_i j hrj
    rw [hr] at hrj
    injection hrj with hji
    subst hji
    rw [h]

theorem enrichStepFallback_some {gi : Nat → Option Info} {st : AggSt}
    {r r2 : Recipe} (h : enrichStepFallback gi st r = some r2) :
    r2.rid = r.rid ∧ r2.match_count = some (matchCountOf st r) ∧
      ∀ i, r.rid = some i → (gi i).isSome = true := by
  unfold enrichStepFallback at h
  split at h
  · cases h
  · split at h
    · cases h
    · rename_i x0 i hri x1 info hgi
      cases h
      refine ⟨rfl, rfl, ?_⟩
      intro i' hi'
      rw [hri] at hi'
      injection hi' with e
      subst e
      simp [hgi]

theorem matchCountOf_congr {st : AggSt} {r r2 : Recipe} (h : r2.rid = r.rid) :
    matchCountOf st r2 = matchCountOf st r := by
  simp [matchCountOf, h]

/-! ## Bridging lemmas between the pipeline stages -/

theorem mem_rankedRecipes {st : AggSt} {num : Nat} {r : Recipe}
    (h : r ∈ rankedRecipes st num) : r ∈ st.all_recipes.map Prod.snd := by
  unfold rankedRecipes at h
  have h1 : r ∈ sortByCountDesc st (st.all_recipes.map Prod.snd) :=
    (List.take_sublist _ _).subset h
  exact (sortByCountDesc_perm st _).mem_iff.mp h1

theorem get_recipes_OR_mem {fb : List Char → Option (List Recipe)}
    {gi : Nat → Option Info} {ing : String} {mt : Option Nat}
    {cu dt : Option String} {num : Nat} {r2 : Recipe}
    (h : r2 ∈ get_recipes_OR fb gi ing mt cu dt num) :
    ∃ r, r ∈ rankedRecipes (aggregate fb (normalizeIngredients ing)) num ∧
      enrichStepOR gi mt cu dt r = some r2 := by
  simp only [get_recipes_OR] at h
  exact List.mem_filterMap.mp h

theorem get_recipes_OR_match_count_none {fb : List Char → Option (List Recipe)}
    {gi : Nat → Option Info} {ing : String} {mt : Option Nat}
    {cu dt : Option String} {num : Nat}
    (hfb : ∀ (g : List Char) (r : Recipe), r ∈ (fb g).getD [] →
      r.match_count = none) :
    ∀ r ∈ get_recipes_OR fb gi ing mt cu dt num, r.match_count = none := by
  intro r2 h
  obtain ⟨r, hr, hstep⟩ := get_recipes_OR_mem h
  have hmem := mem_rankedRecipes hr
  obtain ⟨p, hp, hpr⟩ := List.mem_map.mp hmem
  obtain ⟨g, hg, hresp⟩ := mem_aggregate_values hp
  rw [(enrichStepOR_some hstep).2, ← hpr]
  exact hfb g p.2 hresp

theorem get_recipes_match_count_none {api : Option String}
    {cs : ComplexQuery → Except ApiFailure (List Recipe)}
    {fb : List Char → Option (List Recipe)} {gi : Nat → Option Info}
    {ing : String} {mt : Option Nat} {cu : Option String} {num : Nat}
    {sty : String} {dt : Option String} {li : Bool} {l : List Recipe}
    (hfb : ∀ (g : List Char) (r : Recipe), r ∈ (fb g).getD [] →
      r.match_count = none)
    (hcs : ∀ (q : ComplexQuery) (rs : List Recipe) (r : Recipe),
      cs q = .ok rs → r ∈ rs → r.match_count = none)
    (h : get_recipes api cs fb gi ing mt cu num sty dt li = .ok l) :
    ∀ r ∈ l, r.match_count = none := by
  unfold get_recipes at h
  by_cases hk : keyPresent api = true
  · simp only [hk, Bool.not_true, Bool.false_eq_true, if_false] at h
    by_cases hsty : (sty == "OR") = true
    · rw [if_pos hsty] at h
      injection h with h'
      rw [← h']
      exact get_recipes_OR_match_count_none hfb
    · rw [if_neg hsty] at h
      split at h
      · cases h
      · cases h
      · rename_i rs hq
        injection h with h'
        rw [← h']
        intro r2 hr2
        obtain ⟨r, hr, hre⟩ := List.mem_map.mp hr2
        rw [← hre, (enrichStepAND_fields gi r).2]
        exact hcs _ rs r hq hr
  · have hk' : keyPresent api = false := Bool.eq_false_iff.mpr hk
    rw [hk'] at h
    simp at h

theorem get_fallback_match_count {api : Option String}
    {fb : List Char → Option (List Recipe)} {gi : Nat → Option Info}
    {ing : String} {num : Nat} :
    ∀ r ∈ get_fallback_recipes api fb gi ing num,
      r.match_count =
        some (matchCountOf (aggregate fb (normalizeIngredients ing)) r) := by
  intro r2 h
  unfold get_fallback_recipes at h
  by_cases hk : keyPresent api = true
  · simp only [hk, Bool.not_true, Bool.false_eq_true, if_false] at h
    obtain ⟨r, hr, hstep⟩ := List.mem_filterMap.mp h
    obtain ⟨hrid, hmc, _⟩ := enrichStepFallback_some hstep
    rw [hmc, matchCountOf_congr hrid]
  · have hk' : keyPresent api = false := Bool.eq_false_iff.mpr hk
    rw [hk'] at h
    simp at h

theorem get_fallback_fetch_ok {api : Option String}
    {fb : List Char → Option (List Recipe)} {gi : Nat → Option Info}
    {ing : String} {num : Nat} {r : Recipe} {i : Nat}
    (h : r ∈ get_fallback_recipes api fb gi ing num) (hr : r.rid = some i) :
    (gi i).isSome = true := by
  unfold get_fallback_recipes at h
  by_cases hk : keyPresent api = true
  · simp only [hk, Bool.not_true, Bool.false_eq_true, if_false] at h
    obtain ⟨r0, hr0, hstep⟩ := List.mem_filterMap.mp h
    obtain ⟨hrid, _, hfetch⟩ := enrichStepFallback_some hstep
    exact hfetch i (by rw [← hrid, hr])
  · have hk' : keyPresent api = false := Bool.eq_false_iff.mpr hk
    rw [hk'] at h
    simp at h

theorem aggregate_values_pairwise_ne (fb : List Char → Option (List Recipe))
    (ings : List (List Char)) :
    ((aggregate fb ings).all_recipes.map Prod.snd).Pairwise
      (fun a b => a.rid ≠ b.rid) := by
  obtain ⟨hkeys, hnd, hrid⟩ := AggInv_aggregate fb ings
  have h1 : (aggregate fb ings).all_recipes.Pairwise (fun p q => p.1 ≠ q.1) := by
    have := hnd
    rw [List.Nodup, List.pairwise_map] at this
    exact this
  rw [List.pairwise_map]
  refine List.Pairwise.imp_of_mem ?_ h1
  intro p q hp hq hne hc
  rw [(hrid p hp).1, (hrid q hq).1] at hc
  exact hne (Option.some_injective _ hc)

/-! ## Concrete oracles used by witnesses and counterexamples -/

/-- A recipe id 7 occurring twice in one per-ingredient response. -/
def rdup : Recipe := ⟨some 7, "duplicate", "", none, [], none⟩

def fbC4 : List Char → Option (List Recipe) :=
  fun g => if g == "egg".data then some [rdup, rdup] else none

def rA : Recipe := ⟨some 1, "A", "ia", none, [], none⟩

def rB : Recipe := ⟨some 2, "B", "ib", none, [], none⟩

/-- The enriched form of `rB` under `giC1`. -/
def rB' : Recipe := ⟨some 2, "B", "newimg", some 12, ["thai"], some 1⟩

def fbC1 : List Char → Option (List Recipe) :=
  fun g => if g == "egg".data then some [rA, rB] else none

/-- Detail oracle that fails for recipe 1 and succeeds for recipe 2. -/
def giC1 : Nat → Option Info :=
  fun i => if i == 2 then some ⟨some 12, ["thai"], ["dinner"], some "newimg"⟩ else none

def rW1 : Recipe := ⟨some 5, "w", "", none, [], none⟩

def fbW1 : List Char → Option (List Recipe) :=
  fun g => if g == "egg".data then some [rW1] else none

def giW1 : Nat → Option Info := fun _ => none

def csW1 : ComplexQuery → Except ApiFailure (List Recipe) := fun _ => .ok [rW1]

def fbW : List Char → Option (List Recipe) := fun _ => none

def csW : ComplexQuery → Except ApiFailure (List Recipe) := fun _ => .ok []

def giW : Nat → Option Info := fun _ => none

/-! ## C3 -/

/-- C3: for every ingredient list searched in inclusive (OR) mode, the
list returned by `get_recipes` is sorted non-increasingly by match count
(for positions `i < j` the count at `i` is ≥ the count at `j`), and the
ordering survives the post-hoc enrichment/filter pass — the statement is
about the final returned list, after that pass. -/
theorem or_results_sorted_by_match_count
    (api : Option String) (cs : ComplexQuery → Except ApiFailure (List Recipe))
    (fb : List Char → Option (List Recipe)) (gi : Nat → Option Info)
    (ingredients : String) (max_time : Option Nat) (cuisine : Option String)
    (num : Nat) (dish_type : Option String) (low_ingredient : Bool)
    (hkey : keyPresent api = true) (l : List Recipe)
    (hl : get_recipes api cs fb gi ingredients max_time cuisine num "OR"
      dish_type low_ingredient = .ok l) :
    l.Pairwise (fun a b =>
      matchCountOf (aggregate fb (normalizeIngredients ingredients)) b ≤
        matchCountOf (aggregate fb (normalizeIngredients ingredients)) a) := by
  unfold get_recipes at hl
  simp only [hkey, Bool.not_true, Bool.false_eq_true, if_false] at hl
  rw [if_pos (by rfl)] at hl
  injection hl with h'
  rw [← h']
  simp only [get_recipes_OR]
  apply pairwise_filterMap_preserved
  · intro a b a2 b2 ha hb hab
    rw [matchCountOf_congr (enrichStepOR_some ha).1,
        matchCountOf_congr (enrichStepOR_some hb).1]
    exact hab
  · exact List.Pairwise.sublist (List.take_sublist _ _)
      (sortByCountDesc_pairwise _ _)

theorem or_results_sorted_witness :
    ([] : List Recipe).Pairwise (fun a b =>
      matchCountOf (aggregate fbW (normalizeIngredients "eggs")) b ≤
        matchCountOf (aggregate fbW (normalizeIngredients "eggs")) a) :=
  or_results_sorted_by_match_count (some "k") csW fbW giW "eggs" none none 30
    none false (by decide) [] rfl

/-! ## C5 -/

/-- C5: a list returned by `get_recipes` in inclusive (OR) mode contains
each recipe id at most once, however many per-ingredient responses
contained it. -/
theorem or_results_unique_ids
    (api : Option String) (cs : ComplexQuery → Except ApiFailure (List Recipe))
    (fb : List Char → Option (List Recipe)) (gi : Nat → Option Info)
    (ingredients : String) (max_time : Option Nat) (cuisine : Option String)
    (num : Nat) (dish_type : Option String) (low_ingredient : Bool)
    (hkey : keyPresent api = true) (l : List Recipe)
    (hl : get_recipes api cs fb gi ingredients max_time cuisine num "OR"
      dish_type low_ingredient = .ok l) :
    l.Pairwise (fun a b => a.rid ≠ b.rid) := by
  unfold get_recipes at hl
  simp only [hkey, Bool.not_true, Bool.false_eq_true, if_false] at hl
  rw [if_pos (by rfl)] at hl
  injection hl with h'
  rw [← h']
  simp only [get_recipes_OR]
  apply pairwise_filterMap_preserved
  · intro a b a2 b2 ha hb hab hc
    exact hab
      (by rw [← (enrichStepOR_some ha).1, ← (enrichStepOR_some hb).1, hc])
  · apply List.Pairwise.sublist (List.take_sublist _ _)
    have hsym : ∀ {x y : Recipe}, x.rid ≠ y.rid → y.rid ≠ x.rid :=
      fun h hc => h hc.symm
    exact ((sortByCountDesc_perm _ _).pairwise_iff hsym).mpr
      (aggregate_values_pairwise_ne fb (normalizeIngredients ingredients))

theorem or_results_unique_ids_witness :
    ([] : List Recipe).Pairwise (fun a b => a.rid ≠ b.rid) :=
  or_results_unique_ids (some "k") csW fbW giW "eggs" none none 30
    none false (by decide) [] rfl

/-! ## C4 -/

/-- C4 (amended): in inclusive (OR) mode the count recorded for a recipe
id is the total number of occurrences of that id across all
per-ingredient responses — an id occurring twice within one response (or
matched by a repeated ingredient) contributes once per occurrence, not
once per distinct matching query. -/
theorem or_match_count_eq_occurrences
    (fb : List Char → Option (List Recipe)) (ingredients : String) (i : Nat)
    (hi : i ≠ 0) :
    cntD (aggregate fb (normalizeIngredients ingredients)) i =
      occurrenceCount fb (normalizeIngredients ingredients) i :=
  cntD_aggregate fb (normalizeIngredients ingredients) hi

/-- C4 counterexample: a single query ("egg") whose response contains id
7 twice yields a recorded count of 2, although only 1 distinct
per-ingredient query matched that id — refuting the claim that a
duplicate inside one response contributes only one. -/
theorem or_match_count_counterexample :
    cntD (aggregate fbC4 (normalizeIngredients "egg")) 7 = 2 ∧
      distinctQueryCount fbC4 (normalizeIngredients "egg") 7 = 1 :=
  ⟨by decide, by decide⟩

theorem or_match_count_witness :
    (7 : Nat) ≠ 0 ∧
      cntD (aggregate fbC4 (normalizeIngredients "egg")) 7 =
        occurrenceCount fbC4 (normalizeIngredients "egg") 7 :=
  ⟨by decide, or_match_count_eq_occurrences fbC4 "egg" 7 (by decide)⟩

/-! ## C1 -/

/-- C1 (amended): in `get_recipes` (both inclusive/OR and exact/AND
branches) a recipe whose per-recipe detail fetch fails is still included,
unchanged, carrying only the fields from the initial search call; in
`get_fallback_recipes`, however, a recipe whose detail fetch fails is
dropped — every recipe in the fallback result had a successful detail
fetch — while the remaining recipes are still returned (the aggregation
is not aborted). -/
theorem detail_failure_nonfatal_amended :
    (∀ (fb : List Char → Option (List Recipe)) (gi : Nat → Option Info)
        (ingredients : String) (mt : Option Nat) (cu dt : Option String)
        (num : Nat) (r : Recipe) (i : Nat),
      r ∈ rankedRecipes (aggregate fb (normalizeIngredients ingredients)) num →
      r.rid = some i → gi i = none →
      r ∈ get_recipes_OR fb gi ingredients mt cu dt num) ∧
    (∀ (api : Option String)
        (cs : ComplexQuery → Except ApiFailure (List Recipe))
        (fb : List Char → Option (List Recipe)) (gi : Nat → Option Info)
        (ingredients : String) (mt : Option Nat) (cu : Option String)
        (num : Nat) (dt : Option String) (li : Bool) (rs : List Recipe)
        (r : Recipe) (i : Nat),
      keyPresent api = true →
      cs (buildComplexQuery ingredients mt cu dt num li) = .ok rs →
      r ∈ rs → r.rid = some i → gi i = none →
      ∃ l, get_recipes api cs fb gi ingredients mt cu num "AND" dt li =
          .ok l ∧ r ∈ l) ∧
    (∀ (api : Option String) (fb : List Char → Option (List Recipe))
        (gi : Nat → Option Info) (ingredients : String) (num : Nat)
        (r : Recipe) (i : Nat),
      r ∈ get_fallback_recipes api fb gi ingredients num →
      r.rid = some i → (gi i).isSome = true) := by
  refine ⟨?_, ?_, ?_⟩
  · intro fb gi ingredients mt cu dt num r i hr hrid hfail
    simp only [get_recipes_OR]
    refine List.mem_filterMap.mpr ⟨r, hr, ?_⟩
    apply enrichStepOR_fail
    intro i' hi'
    rw [hrid] at hi'
    injection hi' with e
    subst e
    exact hfail
  · intro api cs fb gi ingredients mt cu num dt li rs r i hkey hcs hr hrid hfail
    refine ⟨rs.map (enrichStepAND gi), ?_, ?_⟩
    · unfold get_recipes
      simp only [hkey, Bool.not_true, Bool.false_eq_true, if_false]
      rw [if_neg (by decide), hcs]
    · rw [← enrichStepAND_fail hrid hfail]
      exact List.mem_map_of_mem _ hr
  · intro api fb gi ingredients num r i h hr
    exact get_fallback_fetch_ok h hr

/-- C1 counterexample: in the fallback search, recipe `rA` (id 1) is in
the initial search response but its detail fetch fails, and it is absent
from the returned list — the surviving ids are exactly `[some 2]` —
refuting the claim for the fallback path. -/
theorem detail_failure_fallback_drops :
    rA ∈ (fbC1 "egg".data).getD [] ∧ rA.rid = some 1 ∧ giC1 1 = none ∧
      (get_fallback_recipes (some "k") fbC1 giC1 "egg" 30).map Recipe.rid =
        [some 2] :=
  ⟨by decide, by decide, by decide, by decide⟩

theorem detail_failure_witness :
    rW1 ∈ get_recipes_OR fbW1 giW1 "egg" none none none 30 ∧
      (∃ l, get_recipes (some "k") csW1 fbW1 giW1 "egg" none none 30 "AND"
          none false = .ok l ∧ rW1 ∈ l) ∧
      (giC1 2).isSome = true :=
  ⟨detail_failure_nonfatal_amended.1 fbW1 giW1 "egg" none none none 30 rW1 5
      (by decide) (by decide) (by decide),
   detail_failure_nonfatal_amended.2.1 (some "k") csW1 fbW1 giW1 "egg" none
      none 30 none false [rW1] rW1 5 (by decide) rfl (by decide) (by decide)
      (by decide),
   detail_failure_nonfatal_amended.2.2 (some "k") fbC1 giC1 "egg" 30 rB' 2
      (by decide) (by decide)⟩

/-! ## Branch equations of the ingredients handler -/

theorem ingredientsPost_ok_nonempty {api : Option String}
    {cs : ComplexQuery → Except ApiFailure (List Recipe)}
    {fb : List Char → Option (List Recipe)} {gi : Nat → Option Info}
    {text : String} {mt : Option Nat} {cu : Option String} {sty : String}
    {dt : Option String} {li : Bool} {prev : Bool} {all : List Recipe}
    (hp : get_recipes api cs fb gi (filterExcluded text) mt cu 30 sty dt li =
      .ok all) (hne : all ≠ []) :
    ingredientsPost api cs fb gi text mt cu sty dt li prev =
      { recipes := some all, error := none, is_fallback := false,
        fallbackCalled := false } := by
  simp only [ingredientsPost]
  rw [hp]
  have h1 : all.isEmpty = false := by
    cases all with
    | nil => exact absurd rfl hne
    | cons a as => rfl
  simp [h1]

theorem ingredientsPost_fallback_nonempty {api : Option String}
    {cs : ComplexQuery → Except ApiFailure (List Recipe)}
    {fb : List Char → Option (List Recipe)} {gi : Nat → Option Info}
    {text : String} {mt : Option Nat} {cu : Option String} {sty : String}
    {dt : Option String} {li : Bool} {prev : Bool}
    (hp : get_recipes api cs fb gi (filterExcluded text) mt cu 30 sty dt li =
      .ok [])
    (hfbr : get_fallback_recipes api fb gi (filterExcluded text) 30 ≠ []) :
    ingredientsPost api cs fb gi text mt cu sty dt li prev =
      { recipes := some (get_fallback_recipes api fb gi (filterExcluded text) 30),
        error := some noExactMatchMessage, is_fallback := true,
        fallbackCalled := true } := by
  simp only [ingredientsPost]
  rw [hp]
  have h1 : (get_fallback_recipes api fb gi (filterExcluded text) 30).isEmpty
      = false := by
    cases hc : get_fallback_recipes api fb gi (filterExcluded text) 30 with
    | nil => exact absurd hc hfbr
    | cons a as => rfl
  simp [h1]

theorem ingredientsPost_fallback_empty {api : Option String}
    {cs : ComplexQuery → Except ApiFailure (List Recipe)}
    {fb : List Char → Option (List Recipe)} {gi : Nat → Option Info}
    {text : String} {mt : Option Nat} {cu : Option String} {sty : String}
    {dt : Option String} {li : Bool} {prev : Bool}
    (hp : get_recipes api cs fb gi (filterExcluded text) mt cu 30 sty dt li =
      .ok [])
    (hfbr : get_fallback_recipes api fb gi (filterExcluded text) 30 = []) :
    ingredientsPost api cs fb gi text mt cu sty dt li prev =
      { recipes := none, error := some noRecipesMessage, is_fallback := prev,
        fallbackCalled := true } := by
  simp only [ingredientsPost]
  rw [hp]
  simp [hfbr]

theorem ingredientsPost_error {api : Option String}
    {cs : ComplexQuery → Except ApiFailure (List Recipe)}
    {fb : List Char → Option (List Recipe)} {gi : Nat → Option Info}
    {text : String} {mt : Option Nat} {cu : Option String} {sty : String}
    {dt : Option String} {li : Bool} {prev : Bool} {e : SearchError}
    (hp : get_recipes api cs fb gi (filterExcluded text) mt cu 30 sty dt li =
      .error e) :
    ingredientsPost api cs fb gi text mt cu sty dt li prev =
      { recipes := none, error := some (searchErrorMessage e),
        is_fallback := prev, fallbackCalled := false } := by
  simp only [ingredientsPost]
  rw [hp]

/-! ## C2 -/

/-- C2: the fallback search is invoked iff the primary search returns
normally with an empty list; when the fallback produces results each one
carries its match count and the session is flagged `is_fallback`; primary
(exact-match) results have `is_fallback = false` and no match-count
annotation (given that the raw API responses carry none). -/
theorem fallback_iff_empty_primary (api : Option String)
    (cs : ComplexQuery → Except ApiFailure (List Recipe))
    (fb : List Char → Option (List Recipe)) (gi : Nat → Option Info)
    (text : String) (mt : Option Nat) (cu : Option String) (sty : String)
    (dt : Option String) (li : Bool) (prev : Bool)
    (hfb : ∀ (g : List Char) (r : Recipe), r ∈ (fb g).getD [] →
      r.match_count = none)
    (hcs : ∀ (q : ComplexQuery) (rs : List Recipe) (r : Recipe),
      cs q = .ok rs → r ∈ rs → r.match_count = none) :
    ((ingredientsPost api cs fb gi text mt cu sty dt li prev).fallbackCalled
        = true ↔
      get_recipes api cs fb gi (filterExcluded text) mt cu 30 sty dt li =
        .ok []) ∧
    (∀ l, get_recipes api cs fb gi (filterExcluded text) mt cu 30 sty dt li =
        .ok l → l ≠ [] →
      (ingredientsPost api cs fb gi text mt cu sty dt li prev).is_fallback
          = false ∧
      (ingredientsPost api cs fb gi text mt cu sty dt li prev).recipes
          = some l ∧
      ∀ r ∈ l, r.match_count = none) ∧
    (get_recipes api cs fb gi (filterExcluded text) mt cu 30 sty dt li =
        .ok [] →
      get_fallback_recipes api fb gi (filterExcluded text) 30 ≠ [] →
      (ingredientsPost api cs fb gi text mt cu sty dt li prev).is_fallback
          = true ∧
      (ingredientsPost api cs fb gi text mt cu sty dt li prev).recipes =
        some (get_fallback_recipes api fb gi (filterExcluded text) 30) ∧
      ∀ r ∈ get_fallback_recipes api fb gi (filterExcluded text) 30,
        r.match_count = some (matchCountOf
          (aggregate fb (normalizeIngredients (filterExcluded text))) r)) := by
  cases hp : get_recipes api cs fb gi (filterExcluded text) mt cu 30 sty dt li with
  | ok all =>
    by_cases hall : all = []
    · subst hall
      by_cases hfbr : get_fallback_recipes api fb gi (filterExcluded text) 30 = []
      · refine ⟨?_, ?_, ?_⟩
        · rw [ingredientsPost_fallback_empty hp hfbr]
          simp
        · intro l hl hlne
          injection hl with e
          exact absurd e.symm hlne
        · intro _ hne
          exact absurd hfbr hne
      · refine ⟨?_, ?_, ?_⟩
        · rw [ingredientsPost_fallback_nonempty hp hfbr]
          simp
        · intro l hl hlne
          injection hl with e
          exact absurd e.symm hlne
        · intro _ _
          rw [ingredientsPost_fallback_nonempty hp hfbr]
          exact ⟨rfl, rfl, fun r hr => get_fallback_match_count r hr⟩
    · refine ⟨?_, ?_, ?_⟩
      · rw [ingredientsPost_ok_nonempty hp hall]
        constructor
        · intro hc
          simp at hc
        · intro hc
          injection hc with e'
          exact absurd e' hall
      · intro l hl hlne
        injection hl with e
        subst e
        rw [ingredientsPost_ok_nonempty hp hall]
        exact ⟨rfl, rfl, get_recipes_match_count_none hfb hcs hp⟩
      · intro h0 _
        injection h0 with e
        exact absurd e hall
  | error e =>
    refine ⟨?_, ?_, ?_⟩
    · rw [ingredientsPost_error hp]
      constructor
      · intro hc
        simp at hc
      · intro hc
        simp at hc
    · intro l hl hlne
      simp at hl
    · intro h0 _
      simp at h0

theorem fallback_iff_witness :
    ((ingredientsPost (some "k") csW1 fbW giW "eggs" none none "AND" none
        false false).fallbackCalled = true ↔
      get_recipes (some "k") csW1 fbW giW (filterExcluded "eggs") none none 30
        "AND" none false = .ok []) ∧
    (ingredientsPost (some "k") csW1 fbW giW "eggs" none none "AND" none
        false false).is_fallback = false := by
  have hfb : ∀ (g : List Char) (r : Recipe), r ∈ (fbW g).getD [] →
      r.match_count = none := by
    intro g r h
    simp [fbW] at h
  have hcs : ∀ (q : ComplexQuery) (rs : List Recipe) (r : Recipe),
      csW1 q = .ok rs → r ∈ rs → r.match_count = none := by
    intro q rs r hq hr
    injection hq with e
    subst e
    simp at hr
    subst hr
    rfl
  have h := fallback_iff_empty_primary (some "k") csW1 fbW giW "eggs" none
    none "AND" none false false hfb hcs
  exact ⟨h.1, (h.2.1 [rW1] rfl (by decide)).1⟩

/-! ## C6 -/

/-- C6: a comma-separated token whose trimmed form starts with the
exclusion marker `#` is dropped by the handler's normalization — no token
of the constructed query starts with `#` — and the concrete scenario
"eggs, milk, #cilantro" in exact mode yields the query "eggs, milk"
(the exact-mode search passes this string through unchanged as its
`includeIngredients` parameter). -/
theorem excluded_tokens_dropped :
    (∀ (s : String) (t : List Char), t ∈ filterExcludedTokens s →
      t.head? ≠ some '#') ∧
    filterExcluded "eggs, milk, #cilantro" = "eggs, milk" ∧
    (∀ (mt : Option Nat) (cu dt : Option String) (num : Nat) (li : Bool),
      (buildComplexQuery (filterExcluded "eggs, milk, #cilantro") mt cu dt num
        li).includeIngredients = "eggs, milk") := by
  refine ⟨?_, by decide, ?_⟩
  · intro s t ht
    obtain ⟨u, hu, hut⟩ := List.mem_map.mp ht
    obtain ⟨hu1, hu2⟩ := List.mem_filter.mp hu
    simp only [Bool.and_eq_true, Bool.not_eq_true', beq_eq_false_iff_ne] at hu2
    rw [← hut]
    exact hu2.2
  · intro mt cu dt num li
    have h : filterExcluded "eggs, milk, #cilantro" = "eggs, milk" := by decide
    simp [buildComplexQuery, h]

theorem excluded_tokens_witness :
    "eggs".data ∈ filterExcludedTokens "eggs, milk, #cilantro" ∧
      "eggs".data.head? ≠ some '#' :=
  ⟨by decide,
   excluded_tokens_dropped.1 "eggs, milk, #cilantro" "eggs".data (by decide)⟩

/-! ## C7 -/

/-- C7: adding a favorite for a (user, recipe) pair that already has a
row returns the "Already in favorites" rejection and leaves the table
unchanged; moreover `add_favorite` preserves uniqueness of
(user_id, recipe_id) pairs, so it never creates a duplicate row. -/
theorem add_favorite_no_duplicates
    (recipeInfoApi : Nat → Option FavApiInfo) (db : List Favorite)
    (user_id recipe_id : Nat) :
    ((∃ f ∈ db, f.user_id = user_id ∧ f.recipe_id = recipe_id) →
      add_favorite recipeInfoApi db user_id recipe_id =
        (db, .alreadyInFavorites)) ∧
    ((db.map (fun f => (f.user_id, f.recipe_id))).Nodup →
      (((add_favorite recipeInfoApi db user_id recipe_id).1).map
        (fun f => (f.user_id, f.recipe_id))).Nodup) := by
  constructor
  · intro hex
    obtain ⟨f, hf, h1, h2⟩ := hex
    have hfind : (db.find? (fun f =>
        f.user_id == user_id && f.recipe_id == recipe_id)).isSome = true := by
      rw [List.find?_isSome]
      exact ⟨f, hf, by simp [h1, h2]⟩
    obtain ⟨f0, hf0⟩ := Option.isSome_iff_exists.mp hfind
    simp [add_favorite, hf0]
  · intro hnd
    unfold add_favorite
    cases hfind : db.find? (fun f =>
        f.user_id == user_id && f.recipe_id == recipe_id) with
    | some f0 => exact hnd
    | none =>
      cases hinfo : recipeInfoApi recipe_id with
      | none => exact hnd
      | some d =>
        rw [List.map_append, List.nodup_append]
        refine ⟨hnd, by simp, ?_⟩
        intro p hp hpnew
        simp only [List.map_cons, List.map_nil, List.mem_singleton] at hpnew
        obtain ⟨f, hf, hpf⟩ := List.mem_map.mp hp
        have hnotp := List.find?_eq_none.mp hfind f hf
        simp only [Bool.and_eq_true, beq_iff_eq, not_and] at hnotp
        rw [hpnew] at hpf
        have h1 : f.user_id = user_id := congrArg Prod.fst hpf
        have h2 : f.recipe_id = recipe_id := congrArg Prod.snd hpf
        exact hnotp h1 h2

theorem add_favorite_witness :
    add_favorite (fun _ => none) [⟨1, 2, "t", "i"⟩] 1 2 =
      ([⟨1, 2, "t", "i"⟩], .alreadyInFavorites) :=
  (add_favorite_no_duplicates (fun _ => none) [⟨1, 2, "t", "i"⟩] 1 2).1
    ⟨⟨1, 2, "t", "i"⟩, by decide, rfl, rfl⟩

/-! ## C8 -/

/-- The length of a `get_recipes` result (0 for an error). -/
def exceptLength : Except SearchError (List Recipe) → Nat
  | .ok l => l.length
  | .error _ => 0

def mkR (i : Nat) : Recipe := ⟨some (i + 1), "", "", none, [], none⟩

/-- A complex-search oracle answering with 31 recipes regardless of the
requested `number`. -/
def cs31 : ComplexQuery → Except ApiFailure (List Recipe) :=
  fun _ => .ok ((List.range 31).map mkR)

/-- C8 (amended): inclusive (OR) mode caps the list handed to detail
enrichment — and hence the returned list — at `num` locally, before any
detail fetch; exact (AND) mode only passes `num` as the request's
`number` parameter and does not truncate the response, so there the list
handed to enrichment, and the returned list, have exactly the length of
whatever result list the search response contains. -/
theorem result_cap_amended :
    (∀ (fb : List Char → Option (List Recipe)) (gi : Nat → Option Info)
        (ing : String) (mt : Option Nat) (cu dt : Option String) (num : Nat),
      (rankedRecipes (aggregate fb (normalizeIngredients ing)) num).length
          ≤ num ∧
      (get_recipes_OR fb gi ing mt cu dt num).length ≤ num) ∧
    (∀ (api : Option String)
        (cs : ComplexQuery → Except ApiFailure (List Recipe))
        (fb : List Char → Option (List Recipe)) (gi : Nat → Option Info)
        (ing : String) (mt : Option Nat) (cu : Option String) (num : Nat)
        (dt : Option String) (li : Bool) (rs : List Recipe),
      keyPresent api = true →
      cs (buildComplexQuery ing mt cu dt num li) = .ok rs →
      get_recipes api cs fb gi ing mt cu num "AND" dt li =
          .ok (rs.map (enrichStepAND gi)) ∧
        (rs.map (enrichStepAND gi)).length = rs.length) := by
  constructor
  · intro fb gi ing mt cu dt num
    have h1 : (rankedRecipes (aggregate fb (normalizeIngredients ing))
        num).length ≤ num := by
      unfold rankedRecipes
      rw [List.length_take]
      exact Nat.min_le_left _ _
    refine ⟨h1, ?_⟩
    simp only [get_recipes_OR]
    exact Nat.le_trans (List.length_filterMap_le _ _) h1
  · intro api cs fb gi ing mt cu num dt li rs hkey hcs
    constructor
    · unfold get_recipes
      simp only [hkey, Bool.not_true, Bool.false_eq_true, if_false]
      rw [if_neg (by decide), hcs]
    · exact List.length_map _ _

/-- C8 counterexample: in exact mode with `num = 30`, a response
containing 31 recipes produces a returned list of 31 recipes — more than
the configured cap — so the cap does not hold for every possible
search-API response. -/
theorem result_cap_counterexample :
    exceptLength (get_recipes (some "key") cs31 (fun _ => none)
      (fun _ => none) "eggs" none none 30 "AND" none false) = 31 ∧
      ¬ (31 ≤ 30) := ⟨by decide, by decide⟩

theorem result_cap_witness :
    (get_recipes_OR fbW giW "eggs" none none none 30).length ≤ 30 ∧
      (get_recipes (some "k") csW fbW giW "eggs" none none 30 "AND" none
          false = .ok ([].map (enrichStepAND giW)) ∧
        ([].map (enrichStepAND giW)).length = ([] : List Recipe).length) :=
  ⟨(result_cap_amended.1 fbW giW "eggs" none none none 30).2,
   result_cap_amended.2 (some "k") csW fbW giW "eggs" none none 30 none false
     [] (by decide) rfl⟩

/-! ## C9 -/

def fbC9 : List Char → Option (List Recipe) :=
  fun g => if g == "eggs".data then some [rW1] else none

def giC9 : Nat → Option Info := fun _ => some ⟨some 5, [], [], none⟩

/-- C9 (amended): with a missing (falsy) credential, `get_recipes` fails
with the configuration error before any network call — its result is the
`missingKey` error for every choice of the API oracles — and that error
is distinct from the upstream HTTP-failure categories; the fallback
search, however, does not fail: it silently returns an empty list. -/
theorem missing_key_behaviour :
    (∀ (api : Option String)
        (cs : ComplexQuery → Except ApiFailure (List Recipe))
        (fb : List Char → Option (List Recipe)) (gi : Nat → Option Info)
        (ing : String) (mt : Option Nat) (cu : Option String) (num : Nat)
        (sty : String) (dt : Option String) (li : Bool),
      keyPresent api = false →
      get_recipes api cs fb gi ing mt cu num sty dt li =
        .error .missingKey) ∧
    (∀ (api : Option String) (fb : List Char → Option (List Recipe))
        (gi : Nat → Option Info) (ing : String) (num : Nat),
      keyPresent api = false →
      get_fallback_recipes api fb gi ing num = []) ∧
    (∀ (s : Nat) (m : String), SearchError.missingKey ≠ .http s ∧
      SearchError.missingKey ≠ .runtime m) := by
  refine ⟨?_, ?_, ?_⟩
  · intro api cs fb gi ing mt cu num sty dt li hk
    unfold get_recipes
    simp [hk]
  · intro api fb gi ing num hk
    unfold get_fallback_recipes
    simp [hk]
  · intro s m
    exact ⟨fun hc => (nomatch hc), fun hc => (nomatch hc)⟩

/-- C9 counterexample: with the credential missing, the fallback search
returns `[]` normally instead of failing with a configuration error —
even though with a credential present the very same oracles produce a
non-empty result. -/
theorem missing_key_fallback_silent :
    get_fallback_recipes none fbC9 giC9 "eggs" 30 = [] ∧
      get_fallback_recipes (some "k") fbC9 giC9 "eggs" 30 ≠ [] :=
  ⟨by decide, by decide⟩

theorem missing_key_witness :
    get_recipes none csW fbW giW "eggs" none none 30 "AND" none false =
        .error .missingKey ∧
      get_fallback_recipes none fbW giW "eggs" 30 = [] :=
  ⟨missing_key_behaviour.1 none csW fbW giW "eggs" none none 30 "AND" none
      false (by decide),
   missing_key_behaviour.2.1 none fbW giW "eggs" 30 (by decide)⟩

/-! ## C10 -/

/-- C10: signup lowercases the submitted address for both the uniqueness
check and the inserted row, so every row it creates has a lowercase
(`pyLower`-image) email and the all-emails-lowercase invariant is
preserved; login looks the user up by the lowercased submitted address,
so after a successful signup any capitalization variant of the registered
address authenticates (given that `check_hash` accepts the hash
`gen_hash` produced). -/
theorem signup_login_lowercase (gen_hash : String → String)
    (check_hash : String → String → Bool) (db : List User)
    (e p v : String) (hck : check_hash (gen_hash p) p = true)
    (hv : pyLower v = pyLower e) :
    (∀ u ∈ (signup gen_hash db e p).1, u ∈ db ∨ u.email = pyLower e) ∧
    ((signup gen_hash db e p).2 = .emailExists ↔
      ∃ u ∈ db, u.email = pyLower e) ∧
    ((∀ u ∈ db, ∃ x, u.email = pyLower x) →
      ∀ u ∈ (signup gen_hash db e p).1, ∃ x, u.email = pyLower x) ∧
    ((signup gen_hash db e p).2 = .created →
      login check_hash (signup gen_hash db e p).1 v p = true) := by
  cases hfind : db.find? (fun u => u.email == pyLower e) with
  | some u0 =>
    have hs : signup gen_hash db e p = (db, .emailExists) := by
      simp [signup, hfind]
    refine ⟨?_, ?_, ?_, ?_⟩
    · intro u hu
      rw [hs] at hu
      exact Or.inl hu
    · rw [hs]
      simp only [true_iff]
      have hu0 := List.find?_some hfind
      have hmem := List.mem_of_find?_eq_some hfind
      exact ⟨u0, hmem, by simpa using hu0⟩
    · intro hinv u hu
      rw [hs] at hu
      exact hinv u hu
    · intro hc
      rw [hs] at hc
      cases hc
  | none =>
    have hs : signup gen_hash db e p =
        (db ++ [{ email := pyLower e, password_hash := gen_hash p }],
         .created) := by
      simp [signup, hfind]
    refine ⟨?_, ?_, ?_, ?_⟩
    · intro u hu
      rw [hs] at hu
      rcases List.mem_append.mp hu with hu | hu
      · exact Or.inl hu
      · simp at hu
        subst hu
        exact Or.inr rfl
    · rw [hs]
      constructor
      · intro hc
        cases hc
      · rintro ⟨u, hu, he⟩
        have hne := List.find?_eq_none.mp hfind u hu
        rw [he] at hne
        simp at hne
    · intro hinv u hu
      rw [hs] at hu
      rcases List.mem_append.mp hu with hu | hu
      · exact hinv u hu
      · simp at hu
        subst hu
        exact ⟨e, rfl⟩
    · intro _
      rw [hs]
      unfold login
      rw [hv, List.find?_append, hfind]
      simp [hck]

def hashW : String → String := fun s => s ++ "h"

def checkW : String → String → Bool := fun h p => h == p ++ "h"

theorem signup_login_witness :
    login checkW (signup hashW [] "Ann@Example.com" "pw").1 "ANN@EXAMPLE.COM"
      "pw" = true :=
  (signup_login_lowercase hashW checkW [] "Ann@Example.com" "pw"
    "ANN@EXAMPLE.COM" (by decide) (by decide)).2.2.2 (by decide)

end PantryPal
